import Mathlib

/-!
Verification of the resilient n8n API client (`src/clients/n8n_client.py`):
URL normalization, credential sanitization, export bundling, the request
executor's retry/backoff behaviour, listing-response normalization, and the
health prober.  Python values decoded from JSON are modelled by the `Json`
inductive; Python dicts are ordered association lists with unique keys (the
uniqueness is never needed below).  Machine-level concerns (floats in the
health prober's clock, unicode digit classes in `int()`) are modelled
abstractly where noted.
-/

/-- JSON-like values as produced by `response.json()`: Python `None`, `bool`,
`int`, `str`, `list`, `dict`. -/
inductive Json where
  | null
  | boolean (b : Bool)
  | num (n : Int)
  | str (s : String)
  | arr (elems : List Json)
  | obj (fields : List (String × Json))

/-- Python `d[k]` / `k in d` on a dict, as first-match lookup on the
association list. -/
def lookupKey (k : String) : List (String × Json) → Option Json
  | [] => none
  | e :: es => if e.1 = k then some e.2 else lookupKey k es

/-- Python `str.strip()`: remove leading and trailing whitespace. -/
def pyStrip (s : String) : String :=
  String.mk (((s.toList.dropWhile Char.isWhitespace).reverse.dropWhile
    Char.isWhitespace).reverse)

/-! ### `_normalize_base_url` (n8n_client.py lines 181-206)

URLs are modelled as their character lists. -/

/-- Python `url.rstrip('/')`: remove all trailing slashes. -/
def rstripSlash (s : List Char) : List Char :=
  (s.reverse.dropWhile (fun c => c = '/')).reverse

/-- The fixed API-version path suffix `/api/v1`. -/
def apiV1Suffix : List Char := "/api/v1".toList

/-- `_normalize_base_url`: strip trailing slashes, then append `/api/v1`
unless the URL already ends with it. -/
def normalizeBaseUrl (s : List Char) : List Char :=
  let url := rstripSlash s
  if apiV1Suffix.isSuffixOf url then url else url ++ apiV1Suffix

/-! ### `_sanitize_credentials` (n8n_client.py lines 523-554) -/

/-- The fixed placeholder dict written over every credentials entry. -/
def credPlaceholder : Json :=
  .obj [("id", .str "REMOVED_FOR_SECURITY"), ("name", .str "CREDENTIAL_PLACEHOLDER")]

/-- The loop `for cred_type in node["credentials"]: node["credentials"][cred_type] = ...`:
every entry's value is replaced by the placeholder, whatever its key. -/
def sanitizeCredsMap (creds : List (String × Json)) : List (String × Json) :=
  creds.map (fun e => (e.1, credPlaceholder))

/-- The body of the per-node loop: `if "credentials" in node:` replace every
credentials entry.  Nodes that are not dicts, and credentials values that are
not dicts, are outside the shapes the source handles (the Python would raise
`TypeError` on a non-dict credentials value); theorems restrict to
well-formed payloads via `wfPayload`. -/
def sanitizeNodeField (e : String × Json) : String × Json :=
  if e.1 = "credentials" then
    match e.2 with
    | .obj creds => (e.1, Json.obj (sanitizeCredsMap creds))
    | v => (e.1, v)
  else e

/-- See `sanitizeNodeField`: applied to every field of a node dict. -/
def sanitizeNode (node : Json) : Json :=
  match node with
  | .obj nfs =>
      if (lookupKey "credentials" nfs).isSome then .obj (nfs.map sanitizeNodeField)
      else .obj nfs
  | other => other

/-- `_sanitize_credentials`: shallow-copies the top-level dict and replaces
every credentials entry of every node under the top-level `"nodes"` key.
(The value-level result; the sharing/mutation behaviour of the shallow copy
is modelled separately by the heap semantics below.) -/
def sanitizeTopField (e : String × Json) : String × Json :=
  if e.1 = "nodes" then
    match e.2 with
    | .arr nodes => (e.1, Json.arr (nodes.map sanitizeNode))
    | v => (e.1, v)
  else e

/-- See `sanitizeTopField`: applied to every field of the copied top-level
dict. -/
def sanitizeCredentials (w : Json) : Json :=
  match w with
  | .obj fs => .obj (fs.map sanitizeTopField)
  | other => other

/-- A node is well formed when it is a dict whose `"credentials"` value, if
present, is a dict (the only shape the source's assignment loop accepts). -/
def wfNode (n : Json) : Bool :=
  match n with
  | .obj nfs =>
      match lookupKey "credentials" nfs with
      | none => true
      | some (.obj _) => true
      | some _ => false
  | _ => false

/-- A workflow payload is well formed when it is a dict whose `"nodes"`
value, if present, is a list of well-formed nodes. -/
def wfPayload (w : Json) : Bool :=
  match w with
  | .obj fs =>
      match lookupKey "nodes" fs with
      | none => true
      | some (.arr nodes) => nodes.all wfNode
      | some _ => false
  | _ => false

mutual
/-- All string data occurring in a value: string leaves and dict keys. -/
def collectStrings : Json → List String
  | .null => []
  | .boolean _ => []
  | .num _ => []
  | .str s => [s]
  | .arr xs => collectStringsArr xs
  | .obj fs => collectStringsObj fs

def collectStringsArr : List Json → List String
  | [] => []
  | x :: xs => collectStrings x ++ collectStringsArr xs

def collectStringsObj : List (String × Json) → List String
  | [] => []
  | e :: fs => e.1 :: (collectStrings e.2 ++ collectStringsObj fs)
end

/-- Like `sanitizeNode`, but blanks every credentials entry to `null`: the
strings of `scrubCredentials w` are exactly the strings of `w` that occur
outside credentials entry values (plus the credential type keys). -/
def scrubNodeField (e : String × Json) : String × Json :=
  if e.1 = "credentials" then
    match e.2 with
    | .obj creds => (e.1, Json.obj (creds.map (fun ce => (ce.1, Json.null))))
    | v => (e.1, v)
  else e

/-- See `scrubNodeField`: the scrubbed counterpart of `sanitizeNode`. -/
def scrubNode (node : Json) : Json :=
  match node with
  | .obj nfs =>
      if (lookupKey "credentials" nfs).isSome then .obj (nfs.map scrubNodeField)
      else .obj nfs
  | other => other

/-- Blank every credentials entry value of the payload to `null`; used to
state "the identifier occurs only inside credentials entry values". -/
def scrubTopField (e : String × Json) : String × Json :=
  if e.1 = "nodes" then
    match e.2 with
    | .arr nodes => (e.1, Json.arr (nodes.map scrubNode))
    | v => (e.1, v)
  else e

/-- See `scrubTopField`: the scrubbed counterpart of `sanitizeCredentials`. -/
def scrubCredentials (w : Json) : Json :=
  match w with
  | .obj fs => .obj (fs.map scrubTopField)
  | other => other

/-- The strings the sanitizer may introduce: the placeholder dict's keys and
values. -/
def credPlaceholderStrings : List String :=
  ["id", "REMOVED_FOR_SECURITY", "name", "CREDENTIAL_PLACEHOLDER"]

/-- Recognizes exactly the placeholder dict written by the sanitizer. -/
def isPlaceholderEntry : Json → Bool
  | .obj [(k1, .str v1), (k2, .str v2)] =>
      k1 == "id" && v1 == "REMOVED_FOR_SECURITY" &&
      k2 == "name" && v2 == "CREDENTIAL_PLACEHOLDER"
  | _ => false

/-- Every credentials-mapping entry of the node equals the placeholder. -/
def nodeCredsPlaceholder (n : Json) : Bool :=
  match n with
  | .obj nfs => nfs.all (fun e =>
      if e.1 = "credentials" then
        match e.2 with
        | .obj creds => creds.all (fun ce => isPlaceholderEntry ce.2)
        | _ => true
      else true)
  | _ => true

/-- Every credentials-mapping entry of every node of the payload equals the
placeholder. -/
def allCredsPlaceholder (w : Json) : Bool :=
  match w with
  | .obj fs => fs.all (fun e =>
      if e.1 = "nodes" then
        match e.2 with
        | .arr nodes => nodes.all nodeCredsPlaceholder
        | _ => true
      else true)
  | _ => true

/-! ### `export_workflow` (n8n_client.py lines 452-521)

The network fetch (`get_workflow`) is external; its successful result is the
`payload` argument.  `exported_at` is the event-loop clock rendered as a
string, passed in as `now`. -/

/-- Log severities used by the client. -/
inductive LogLevel where
  | debugL
  | infoL
  | warningL
  | errorL
deriving DecidableEq

/-- The export dict built by `export_workflow`. -/
structure ExportBundle where
  workflow : Json
  exported_at : String
  exported_by : String
  credentials_included : Bool

/-- `export_workflow`: validate the identifier, fetch (given), sanitize
unless `include_credentials`, and wrap with export metadata.  The returned
log trace records the source's log calls on this path; `Except.error` is the
`ValueError` for a blank identifier. -/
def exportWorkflow (workflowId : String) (payload : Json)
    (includeCredentials : Bool) (now : String) :
    Except String (ExportBundle × List (LogLevel × String)) :=
  if pyStrip workflowId = "" then
    .error "Workflow ID cannot be empty"
  else
    let wid := pyStrip workflowId
    let log0 := [(LogLevel.infoL,
      "Exporting workflow: " ++ wid ++ " (credentials=" ++
        (if includeCredentials then "True" else "False") ++ ")")]
    let log1 := if includeCredentials then
        log0 ++ [(LogLevel.warningL,
          "Exporting workflow WITH credentials - ensure secure handling!")]
      else log0
    let workflowData :=
      if includeCredentials then payload else sanitizeCredentials payload
    let log2 := if includeCredentials then log1
      else log1 ++ [(LogLevel.debugL, "Sanitized credentials from workflow export")]
    .ok ({ workflow := workflowData, exported_at := now,
           exported_by := "AI Admin Hub",
           credentials_included := includeCredentials }, log2)

/-! ### `_make_request` (n8n_client.py lines 247-331)

One logical request.  The transport's behaviour is an oracle `outcomes`
mapping the attempt number (1-based, as in tenacity) to what
`self.client.request` does on that attempt. -/

/-- What the transport does on one attempt: raise `httpx.TimeoutException`,
raise `httpx.NetworkError`, or deliver a response with a status code and an
optional `Retry-After` header. -/
inductive HttpOutcome where
  | timeoutExc (msg : String)
  | networkExc (msg : String)
  | response (status : Nat) (retryAfter : Option String)

/-- The exception kinds that can leave `_make_request`, plus the httpx kinds
that exist transiently inside it and tenacity's `RetryError`.  The
repository's `N8nAPIError` (cli.py exceptions section) is a plain
`Exception` subclass chain with no custom `__init__`: a positional call
`N8nAPIError(msg)` works (`statusCode` stays `none`), but the
keyword-argument calls in `_make_request` cannot construct it — they raise
`TypeError` instead, modelled by `typeError`. -/
inductive PyExc where
  | httpxTimeout (msg : String)
  | httpxNetwork (msg : String)
  | n8nApiError (msg : String) (statusCode : Option Nat)
  | apiError (msg : String)
  | valueError (msg : String)
  | typeError (msg : String)
  | retryError
deriving DecidableEq

/-- Outcome of one decorated call body: a returned response status or a
raised exception. -/
inductive AttemptResult where
  | success (status : Nat)
  | raised (e : PyExc)
deriving DecidableEq

/-- Python `int(s)` on a string: optional surrounding whitespace, optional
sign, then at least one ASCII digit (unicode digits and `_` separators are
not modelled). `None` is Python's `ValueError`. -/
def pyIntOfString (s : String) : Option Int :=
  match (pyStrip s).toList with
  | [] => none
  | c :: rest =>
    let digits := if c = '+' ∨ c = '-' then rest else c :: rest
    if digits ≠ [] ∧ digits.all (fun d => d.isDigit) then
      some ((if c = '-' then (-1 : Int) else 1) *
        Int.ofNat (digits.foldl (fun a d => a * 10 + (d.toNat - '0'.toNat)) 0))
    else none

/-- The `try:` body of `_make_request` for one attempt: 429 handling (read
`Retry-After`, default 60, sleep, raise `httpx.NetworkError`), 401, other
4xx, 5xx, else success.  Second component: the durations slept via
`asyncio.sleep`.  The 401/4xx/5xx branches are written in the source as
`raise N8nAPIError(msg, status_code=..., response=...)`, but the
repository's `N8nAPIError` accepts no keyword arguments, so the
construction itself raises `TypeError` — that is what each of those
branches actually raises. -/
def tryBody (o : HttpOutcome) : AttemptResult × List Int :=
  match o with
  | .timeoutExc m => (.raised (.httpxTimeout m), [])
  | .networkExc m => (.raised (.httpxNetwork m), [])
  | .response st ra =>
    if st = 429 then
      match ra with
      | none => (.raised (.httpxNetwork "Rate limited, retrying..."), [60])
      | some s =>
        match pyIntOfString s with
        | some n => (.raised (.httpxNetwork "Rate limited, retrying..."), [n])
        | none => (.raised (.valueError ("invalid literal for int with base 10: " ++ s)), [])
    else if st = 401 then
      (.raised (.typeError "N8nAPIError() takes no keyword arguments"), [])
    else if 400 ≤ st ∧ st < 500 then
      (.raised (.typeError "N8nAPIError() takes no keyword arguments"), [])
    else if 500 ≤ st then
      (.raised (.typeError "N8nAPIError() takes no keyword arguments"), [])
    else
      (.success st, [])

/-- The `except httpx.TimeoutException` / `except httpx.NetworkError`
clauses: convert either httpx exception into `APIError`; everything else
passes through. -/
def catchClauses : AttemptResult → AttemptResult
  | .raised (.httpxTimeout m) => .raised (.apiError ("Request timeout: " ++ m))
  | .raised (.httpxNetwork m) => .raised (.apiError ("Network error: " ++ m))
  | r => r

/-- One full attempt of the decorated function body (try body, then the
except clauses). -/
def attemptOnce (o : HttpOutcome) : AttemptResult × List Int :=
  let r := tryBody o
  (catchClauses r.1, r.2)

/-- tenacity `retry_if_exception_type((httpx.TimeoutException,
httpx.NetworkError))`. -/
def isRetryableExc : PyExc → Bool
  | .httpxTimeout _ => true
  | .httpxNetwork _ => true
  | _ => false

/-- tenacity `wait_exponential(multiplier, min, max)` evaluated after the
given attempt number: `max(min, min(multiplier * 2 ** attemptNumber, max))`. -/
def waitExponential (multiplier minW maxW : Nat) (attemptNumber : Nat) : Nat :=
  max minW (min (multiplier * 2 ^ attemptNumber) maxW)

/-- The tenacity retry loop around the attempt body: `fuel` attempts remain,
`n` is the 1-based attempt number, `sleeps` accumulates every sleep taken
(`Retry-After` sleeps and backoff waits).  With the decorator's default
`reraise=False`, exhausting `stop_after_attempt` raises `RetryError`.
Returns (outcome, sleeps, total attempts made). -/
def makeRequestAux (outcomes : Nat → HttpOutcome) :
    Nat → Nat → List Int → AttemptResult × List Int × Nat
  | 0, n, sleeps => (.raised .retryError, sleeps, n - 1)
  | fuel + 1, n, sleeps =>
    let r := attemptOnce (outcomes n)
    match r.1 with
    | .raised e =>
      if isRetryableExc e then
        if fuel = 0 then (.raised .retryError, sleeps ++ r.2, n)
        else makeRequestAux outcomes fuel (n + 1)
          (sleeps ++ r.2 ++ [(waitExponential 1 4 10 n : Int)])
      else (.raised e, sleeps ++ r.2, n)
    | .success st => (.success st, sleeps ++ r.2, n)

/-- `_make_request` under its decorator `retry(stop=stop_after_attempt(3),
wait=wait_exponential(multiplier=1, min=4, max=10),
retry=retry_if_exception_type((httpx.TimeoutException, httpx.NetworkError)))`. -/
def makeRequest (outcomes : Nat → HttpOutcome) : AttemptResult × List Int × Nat :=
  makeRequestAux outcomes 3 1 []

/-! ### `list_workflows` (n8n_client.py lines 333-404) -/

/-- A validated `N8nWorkflowStatus` record. -/
structure WorkflowSummary where
  active : Bool
  id : String
  name : String
  nodes : Int
  connections : Int
  createdAt : String
  updatedAt : String
deriving DecidableEq

/-- An optional int field with pydantic default 0 (`nodes`, `connections`). -/
def optIntField (fs : List (String × Json)) (k : String) : Option Int :=
  match lookupKey k fs with
  | none => some 0
  | some (.num m) => some m
  | some _ => none

/-- `N8nWorkflowStatus(**record)`: requires a dict with `active : bool`,
non-blank `id : str` (stored stripped, per the validator), `name`,
`createdAt`, `updatedAt` strings, optional int `nodes`/`connections`
defaulting to 0.  `none` is the per-record validation failure the source
logs and skips (pydantic's lenient numeric/boolean coercions are modelled as
exact typing). -/
def parseRecord : Json → Option WorkflowSummary
  | .obj fs =>
    match lookupKey "active" fs, lookupKey "id" fs, lookupKey "name" fs,
      lookupKey "createdAt" fs, lookupKey "updatedAt" fs with
    | some (.boolean a), some (.str i), some (.str nm),
      some (.str c), some (.str u) =>
      if pyStrip i = "" then none
      else
        match optIntField fs "nodes", optIntField fs "connections" with
        | some nd, some cn =>
          some { active := a, id := pyStrip i, name := nm, nodes := nd,
                 connections := cn, createdAt := c, updatedAt := u }
        | _, _ => none
    | _, _, _, _, _ => none
  | _ => none

/-- Python iteration `for x in v`: lists yield their elements, dicts their
keys, strings their characters; numbers, booleans and `None` raise
`TypeError`. -/
def pyIter : Json → Option (List Json)
  | .arr xs => some xs
  | .obj fs => some (fs.map (fun e => Json.str e.1))
  | .str s => some (s.toList.map (fun c => Json.str (String.mk [c])))
  | _ => none

/-- `list_workflows` from the decoded response payload: envelope (`dict`
with a `"data"` key) or bare list, per-record validation with skipped
records counted as logged warnings.  `Except.error` is the
`N8nAPIError("Failed to list workflows: ...")` raised when iterating a
non-iterable `"data"` value hits the outer `except Exception`. -/
def listWorkflows (resp : Json) : Except String (List WorkflowSummary × Nat) :=
  let dataVal : Option Json :=
    match resp with
    | .obj fs => lookupKey "data" fs
    | _ => none
  match dataVal with
  | some v =>
    match pyIter v with
    | some rows =>
      .ok (rows.filterMap parseRecord,
        (rows.filter (fun r => (parseRecord r).isNone)).length)
    | none => .error "Failed to list workflows: TypeError"
  | none =>
    match resp with
    | .arr rows =>
      .ok (rows.filterMap parseRecord,
        (rows.filter (fun r => (parseRecord r).isNone)).length)
    | _ => .ok ([], 0)

/-! ### `health_check` (n8n_client.py lines 556-614)

The underlying `list_workflows(limit=1)` call either returns summaries or
raises; both are the `listing` argument.  The event-loop clock readings are
`startTime` and `endTime` (the float arithmetic and 3-digit rounding of the
source are modelled on an abstract integer clock). -/

/-- The health dict: `status`, optional `error`, response time, API URL,
optional workflow count, timestamp. -/
structure HealthStatus where
  status : String
  error : Option String
  response_time : Int
  api_url : String
  workflow_count : Option Nat
  timestamp : Int

/-- `health_check`: list workflows; on success report `healthy` with the
count, on any raised error report `unhealthy` with the error's message.
Total by construction: every listing outcome yields a status. -/
def healthCheck (listing : Except String (List WorkflowSummary))
    (apiUrl : String) (startTime endTime : Int) : HealthStatus :=
  match listing with
  | .ok ws =>
    { status := "healthy", error := none,
      response_time := endTime - startTime, api_url := apiUrl,
      workflow_count := some ws.length, timestamp := endTime }
  | .error e =>
    { status := "unhealthy", error := some e,
      response_time := endTime - startTime, api_url := apiUrl,
      workflow_count := none, timestamp := endTime }

/-! ### Heap semantics of `_sanitize_credentials` (n8n_client.py lines 540-551)

`sanitized = workflow_data.copy()` is a *shallow* dict copy, and the loop
then assigns through `node["credentials"][cred_type]`, mutating the
credentials dicts that the caller's original payload still references.  To
state this sharing, dicts and lists live in an explicit heap of references. -/

/-- A Python runtime value: an immediate primitive or a reference to a heap
object. -/
inductive PVal where
  | vnull
  | vbool (b : Bool)
  | vint (n : Int)
  | vstr (s : String)
  | vref (r : Nat)
deriving DecidableEq

/-- A heap object: a dict (ordered fields) or a list. -/
inductive PObj where
  | pdict (fields : List (String × PVal))
  | plist (elems : List PVal)
deriving DecidableEq

/-- The heap: objects by reference, plus the allocation frontier. -/
structure Heap where
  objs : Nat → Option PObj
  next : Nat

/-- In-place update of the object at `r`. -/
def setObj (h : Heap) (r : Nat) (o : PObj) : Heap :=
  ⟨fun a => if a = r then some o else h.objs a, h.next⟩

/-- Allocate a fresh object, returning the new heap and its reference. -/
def alloc (h : Heap) (o : PObj) : Heap × Nat :=
  (⟨fun a => if a = h.next then some o else h.objs a, h.next + 1⟩, h.next)

/-- Dict lookup (`d[k]`, `k in d`) on heap dicts. -/
def lookupKeyP (k : String) : List (String × PVal) → Option PVal
  | [] => none
  | e :: es => if e.1 = k then some e.2 else lookupKeyP k es

/-- References held directly by a value. -/
def pvalRefs : PVal → List Nat
  | .vref r => [r]
  | _ => []

/-- References held directly by a dict's fields. -/
def fieldRefs : List (String × PVal) → List Nat
  | [] => []
  | e :: es => pvalRefs e.2 ++ fieldRefs es

/-- References held directly by a list's elements. -/
def elemRefs : List PVal → List Nat
  | [] => []
  | v :: vs => pvalRefs v ++ elemRefs vs

/-- References held directly by an object. -/
def objRefs : PObj → List Nat
  | .pdict fs => fieldRefs fs
  | .plist xs => elemRefs xs

/-- A heap is well formed when nothing is allocated at or beyond `next` and
every stored reference points below `next`. -/
def heapWF (h : Heap) : Prop :=
  (∀ a, h.next ≤ a → h.objs a = none) ∧
  (∀ a o, h.objs a = some o → ∀ r ∈ objRefs o, r < h.next)

/-- The dict `{"id": "REMOVED_FOR_SECURITY", "name": "CREDENTIAL_PLACEHOLDER"}`
freshly built by each loop iteration. -/
def placeholderObj : PObj :=
  .pdict [("id", .vstr "REMOVED_FOR_SECURITY"), ("name", .vstr "CREDENTIAL_PLACEHOLDER")]

/-- `for cred_type in node["credentials"]: node["credentials"][cred_type] = {...}`:
one fresh placeholder dict is allocated per entry and the entry is pointed
at it (keys and their order are untouched). -/
def sanitizeCredsDictH (h : Heap) :
    List (String × PVal) → Heap × List (String × PVal)
  | [] => (h, [])
  | e :: rest =>
    let hp := alloc h placeholderObj
    let hr := sanitizeCredsDictH hp.1 rest
    (hr.1, (e.1, PVal.vref hp.2) :: hr.2)

/-- One iteration of `for node in sanitized["nodes"]`: when the node is a
dict whose `"credentials"` entry references a dict, that credentials dict is
rewritten in place (shapes on which the source would raise `TypeError` are
no-ops here; theorems restrict to dict-shaped credentials). -/
def sanitizeNodeH (h : Heap) (nv : PVal) : Heap :=
  match nv with
  | .vref rnode =>
    match h.objs rnode with
    | some (.pdict nfs) =>
      match lookupKeyP "credentials" nfs with
      | some (.vref rc) =>
        match h.objs rc with
        | some (.pdict creds) =>
          let hc := sanitizeCredsDictH h creds
          setObj hc.1 rc (.pdict hc.2)
        | _ => h
      | _ => h
    | _ => h
  | _ => h

/-- `_sanitize_credentials` as a heap transformer: allocate the shallow copy
(`workflow_data.copy()` shares every field value, references included), then
run the mutating loop over `sanitized["nodes"]`.  Returns the new heap and
the reference of the copy. -/
def sanitizeCredentialsH (h : Heap) (r : Nat) : Heap × Nat :=
  match h.objs r with
  | some (.pdict fs) =>
    let hc := alloc h (.pdict fs)
    match lookupKeyP "nodes" fs with
    | some (.vref rn) =>
      match hc.1.objs rn with
      | some (.plist nodes) => (nodes.foldl sanitizeNodeH hc.1, hc.2)
      | _ => (hc.1, hc.2)
    | _ => (hc.1, hc.2)
  | _ => (h, r)

/-- The credentials-dict reference of a node value, read in a heap (the
write targets of the mutating loop). -/
def credRefOf (h : Heap) (nv : PVal) : Option Nat :=
  match nv with
  | .vref rnode =>
    match h.objs rnode with
    | some (.pdict nfs) =>
      match lookupKeyP "credentials" nfs with
      | some (.vref rc) => some rc
      | _ => none
    | _ => none
  | _ => none

/-- The credentials dict at `rc` has been rewritten in place: same keys in
the same order, every value a reference above `base` to a placeholder dict. -/
def Placeholderified (base : Nat) (h : Heap) (rc : Nat) (keys : List String) : Prop :=
  ∃ creds', h.objs rc = some (.pdict creds') ∧
    creds'.map Prod.fst = keys ∧
    ∀ e ∈ creds', ∃ p, e.2 = PVal.vref p ∧ base < p ∧
      h.objs p = some placeholderObj

/-- A concrete four-object heap: a workflow dict at reference 0 whose
`"nodes"` list (reference 1) holds one node dict (reference 2) whose
credentials dict (reference 3) stores one `slack` entry. -/
def exampleHeap : Heap :=
  { objs := fun a =>
      if a = 0 then some (.pdict [("nodes", .vref 1)])
      else if a = 1 then some (.plist [.vref 2])
      else if a = 2 then some (.pdict [("name", .vstr "Node A"), ("credentials", .vref 3)])
      else if a = 3 then some (.pdict [("slack", .vstr "cred-42")])
      else none,
    next := 4 }

/-! ## Theorems -/

theorem rstripSlash_append_apiV1 (t : List Char) :
    rstripSlash (t ++ apiV1Suffix) = t ++ apiV1Suffix := by
  show ((t ++ apiV1Suffix).reverse.dropWhile (fun c => c = '/')).reverse = _
  rw [List.reverse_append]
  have h : apiV1Suffix.reverse = '1' :: (['v', '/', 'i', 'p', 'a', '/'] : List Char) := by
    decide
  rw [h, List.cons_append, List.dropWhile_cons]
  simp
  decide

theorem normalizeBaseUrl_ends (s : List Char) :
    ∃ t, normalizeBaseUrl s = t ++ apiV1Suffix := by
  unfold normalizeBaseUrl
  simp only []
  split
  · rename_i hsuf
    rcases List.isSuffixOf_iff_suffix.mp hsuf with ⟨t, ht⟩
    exact ⟨t, ht.symm⟩
  · exact ⟨rstripSlash s, rfl⟩

/-- C8: `_normalize_base_url` strips trailing slashes and, when the result
does not already end in `/api/v1`, appends that suffix exactly once; when it
already ends in it, normalization is a no-op beyond the slash stripping; and
normalization is idempotent on every input:
`normalize (normalize x) = normalize x`. -/
theorem normalize_base_url_appends_once_and_idempotent (s : List Char) :
    (apiV1Suffix.isSuffixOf (rstripSlash s) = false →
      normalizeBaseUrl s = rstripSlash s ++ apiV1Suffix) ∧
    (apiV1Suffix.isSuffixOf (rstripSlash s) = true →
      normalizeBaseUrl s = rstripSlash s) ∧
    normalizeBaseUrl (normalizeBaseUrl s) = normalizeBaseUrl s := by
  refine ⟨fun hmiss => ?_, fun hhit => ?_, ?_⟩
  · unfold normalizeBaseUrl
    simp only [hmiss]
    rfl
  · unfold normalizeBaseUrl
    simp only [hhit]
    rfl
  · rcases normalizeBaseUrl_ends s with ⟨t, ht⟩
    rw [ht]
    unfold normalizeBaseUrl
    rw [rstripSlash_append_apiV1]
    rw [if_pos (List.isSuffixOf_iff_suffix.mpr (List.suffix_append t apiV1Suffix))]

/-- Witness for C8 at the configuration default `http://localhost:5678` (the
suffix is missing, so it is appended) and at an already-normalized address
(no-op). -/
theorem normalize_base_url_witness :
    normalizeBaseUrl "http://localhost:5678".toList =
      rstripSlash "http://localhost:5678".toList ++ apiV1Suffix ∧
    normalizeBaseUrl "http://localhost:5678/api/v1".toList =
      rstripSlash "http://localhost:5678/api/v1".toList :=
  ⟨(normalize_base_url_appends_once_and_idempotent "http://localhost:5678".toList).1
      (by decide),
   (normalize_base_url_appends_once_and_idempotent "http://localhost:5678/api/v1".toList).2.1
      (by decide)⟩

/-- C5 (code bug): an HTTP 401 on the first attempt does get exactly one
attempt — nothing catches or retries what it raises — but the failure is NOT
surfaced as an authentication error: the source's
`raise N8nAPIError("Authentication failed. Check your N8n API key.",
status_code=401, response=...)` cannot be performed, because the
repository's `N8nAPIError` is a plain `Exception` subclass taking no
keyword arguments, so the raise site itself raises `TypeError`, and that is
what reaches the caller. -/
theorem make_request_401_single_attempt (outcomes : Nat → HttpOutcome)
    (ra : Option String) (h : outcomes 1 = .response 401 ra) :
    makeRequest outcomes =
      (.raised (.typeError "N8nAPIError() takes no keyword arguments"), [], 1) ∧
    (∀ msg sc, PyExc.typeError "N8nAPIError() takes no keyword arguments" ≠
      .n8nApiError msg sc) ∧
    isRetryableExc (.typeError "N8nAPIError() takes no keyword arguments") = false := by
  refine ⟨?_, fun msg sc hne => PyExc.noConfusion hne, rfl⟩
  simp [makeRequest, makeRequestAux, h, attemptOnce, tryBody, catchClauses, isRetryableExc]

/-- Witness for C5: a transport that answers 401 on every attempt. -/
theorem make_request_401_single_attempt_witness :
    makeRequest (fun _ => .response 401 none) =
      (.raised (.typeError "N8nAPIError() takes no keyword arguments"), [], 1) :=
  (make_request_401_single_attempt (fun _ => .response 401 none) none rfl).1

/-- C3 (code bug): when the first attempt raises a network error or timeout,
`_make_request` does NOT retry: the inner `except httpx.TimeoutException` /
`except httpx.NetworkError` clauses convert the exception into `APIError`
before the tenacity predicate `retry_if_exception_type((TimeoutException,
NetworkError))` can see it, so exactly one attempt is made, no backoff sleep
is taken, and the `APIError` surfaces immediately — against the decorator's
own configuration and the module docstring. -/
theorem make_request_network_failure_not_retried (outcomes : Nat → HttpOutcome)
    (m : String) :
    (outcomes 1 = .timeoutExc m →
      makeRequest outcomes = (.raised (.apiError ("Request timeout: " ++ m)), [], 1)) ∧
    (outcomes 1 = .networkExc m →
      makeRequest outcomes = (.raised (.apiError ("Network error: " ++ m)), [], 1)) := by
  constructor <;> intro h <;>
    simp [makeRequest, makeRequestAux, h, attemptOnce, tryBody, catchClauses, isRetryableExc]

/-- Witness for C3: transports that fail every attempt with a timeout
resp. a network error. -/
theorem make_request_network_failure_not_retried_witness :
    makeRequest (fun _ => .timeoutExc "read timed out") =
      (.raised (.apiError ("Request timeout: " ++ "read timed out")), [], 1) ∧
    makeRequest (fun _ => .networkExc "connection refused") =
      (.raised (.apiError ("Network error: " ++ "connection refused")), [], 1) :=
  ⟨(make_request_network_failure_not_retried (fun _ => .timeoutExc "read timed out")
      "read timed out").1 rfl,
   (make_request_network_failure_not_retried (fun _ => .networkExc "connection refused")
      "connection refused").2 rfl⟩

/-- C4 (code bug): on a 429 the executor does read `Retry-After` (default 60
when absent) and sleeps for exactly that duration, but the
`httpx.NetworkError("Rate limited, retrying...")` it then raises is caught
by the method's own `except httpx.NetworkError` clause and converted to
`APIError`, so no retry ever happens: exactly one attempt, and the failure
surfaces immediately instead of only after the 3-attempt budget. -/
theorem make_request_429_sleeps_but_never_retries (outcomes : Nat → HttpOutcome)
    (s : String) (n : Int) :
    (outcomes 1 = .response 429 none →
      makeRequest outcomes =
        (.raised (.apiError "Network error: Rate limited, retrying..."), [60], 1)) ∧
    (pyIntOfString s = some n → outcomes 1 = .response 429 (some s) →
      makeRequest outcomes =
        (.raised (.apiError "Network error: Rate limited, retrying..."), [n], 1)) := by
  constructor
  · intro h
    simp [makeRequest, makeRequestAux, h, attemptOnce, tryBody, catchClauses, isRetryableExc]
  · intro hp h
    simp [makeRequest, makeRequestAux, h, attemptOnce, tryBody, hp, catchClauses,
      isRetryableExc]

/-- Witness for C4: a 429 with `Retry-After: 2` sleeps exactly 2 seconds and
still gets only one attempt; a 429 without the header sleeps 60. -/
theorem make_request_429_sleeps_but_never_retries_witness :
    makeRequest (fun _ => .response 429 (some "2")) =
      (.raised (.apiError "Network error: Rate limited, retrying..."), [2], 1) ∧
    makeRequest (fun _ => .response 429 none) =
      (.raised (.apiError "Network error: Rate limited, retrying..."), [60], 1) :=
  ⟨(make_request_429_sleeps_but_never_retries (fun _ => .response 429 (some "2")) "2" 2).2
      (by decide) rfl,
   (make_request_429_sleeps_but_never_retries (fun _ => .response 429 none) "" 0).1 rfl⟩

/-- C10: a 429 whose `Retry-After` header is not a decimal integer makes
`int()` raise `ValueError`; no handler in `_make_request` catches it and the
retry predicate does not match it, so it propagates to the caller after a
single attempt (and no sleep) as an error outside the documented taxonomy
(neither `N8nAPIError` nor `APIError`). -/
theorem make_request_429_bad_retry_after_unclassified (outcomes : Nat → HttpOutcome)
    (s : String) (hs : pyIntOfString s = none)
    (h : outcomes 1 = .response 429 (some s)) :
    makeRequest outcomes =
      (.raised (.valueError ("invalid literal for int with base 10: " ++ s)), [], 1) ∧
    isRetryableExc (.valueError ("invalid literal for int with base 10: " ++ s)) = false ∧
    (∀ msg, PyExc.valueError ("invalid literal for int with base 10: " ++ s) ≠
      .apiError msg) ∧
    (∀ msg sc, PyExc.valueError ("invalid literal for int with base 10: " ++ s) ≠
      .n8nApiError msg sc) := by
  refine ⟨?_, rfl, fun msg hne => PyExc.noConfusion hne,
    fun msg sc hne => PyExc.noConfusion hne⟩
  simp [makeRequest, makeRequestAux, h, attemptOnce, tryBody, hs, catchClauses,
    isRetryableExc]

/-- Witness for C10: `Retry-After: abc`. -/
theorem make_request_429_bad_retry_after_unclassified_witness :
    makeRequest (fun _ => .response 429 (some "abc")) =
      (.raised (.valueError ("invalid literal for int with base 10: " ++ "abc")), [], 1) :=
  (make_request_429_bad_retry_after_unclassified (fun _ => .response 429 (some "abc"))
    "abc" (by decide) rfl).1

/-- C7: `health_check` always returns a status and never raises (it is total
over every listing outcome, including a raised error, which the
`except Exception` converts): success yields `"healthy"` with the measured
duration and the observed workflow count, any underlying error yields
`"unhealthy"` carrying that error's message. -/
theorem health_check_total_status (apiUrl : String) (t0 t1 : Int) :
    (∀ ws, healthCheck (.ok ws) apiUrl t0 t1 =
      { status := "healthy", error := none, response_time := t1 - t0,
        api_url := apiUrl, workflow_count := some ws.length, timestamp := t1 }) ∧
    (∀ e, healthCheck (.error e) apiUrl t0 t1 =
      { status := "unhealthy", error := some e, response_time := t1 - t0,
        api_url := apiUrl, workflow_count := none, timestamp := t1 }) ∧
    (∀ listing, (healthCheck listing apiUrl t0 t1).status = "healthy" ∨
      (healthCheck listing apiUrl t0 t1).status = "unhealthy") := by
  refine ⟨fun ws => rfl, fun e => rfl, fun listing => ?_⟩
  cases listing with
  | ok ws => exact Or.inl rfl
  | error e => exact Or.inr rfl

theorem length_filterMap_parseRecord (rows : List Json) :
    (rows.filterMap parseRecord).length +
      (rows.filter (fun r => (parseRecord r).isNone)).length = rows.length := by
  induction rows with
  | nil => rfl
  | cons r rest ih =>
    cases hp : parseRecord r <;>
      simp [List.filterMap_cons, List.filter_cons, hp] <;>
      omega

/-- Counterexample for C6 as frozen: the payload `{"data": 5}` is neither a
`data` envelope holding a sequence nor a bare sequence, yet `list_workflows`
does not normalize it to the empty sequence — iterating the integer raises
`TypeError`, the outer `except Exception` re-raises `N8nAPIError`, and the
call fails. -/
theorem list_workflows_nonlist_data_fails :
    listWorkflows (.obj [("data", .num 5)]) = .error "Failed to list workflows: TypeError" ∧
    ∀ res, listWorkflows (.obj [("data", .num 5)]) ≠ .ok res := by
  refine ⟨rfl, fun res h => ?_⟩
  rw [show listWorkflows (.obj [("data", .num 5)]) =
    .error "Failed to list workflows: TypeError" from rfl] at h
  exact Except.noConfusion h

/-- C6 (amended): an envelope whose `data` field holds a sequence, and a
bare sequence, both normalize to exactly the well-formed records in their
original relative order (the in-order `filterMap` of per-record validation),
with one logged warning per dropped malformed record (N + M = total); a dict
without `data` and a non-dict non-sequence payload normalize to the empty
sequence; but an envelope whose `data` value is non-iterable (number,
boolean or `None`) does not normalize to empty — it fails the call. -/
theorem list_workflows_normalization (fs : List (String × Json)) (rows : List Json)
    (resp : Json) :
    (lookupKey "data" fs = some (.arr rows) →
      listWorkflows (.obj fs) =
        .ok (rows.filterMap parseRecord,
          (rows.filter (fun r => (parseRecord r).isNone)).length)) ∧
    (listWorkflows (.arr rows) =
      .ok (rows.filterMap parseRecord,
        (rows.filter (fun r => (parseRecord r).isNone)).length)) ∧
    ((rows.filterMap parseRecord).length +
      (rows.filter (fun r => (parseRecord r).isNone)).length = rows.length) ∧
    (lookupKey "data" fs = none → listWorkflows (.obj fs) = .ok ([], 0)) ∧
    ((∀ gs, resp ≠ .obj gs) → (∀ xs, resp ≠ .arr xs) → listWorkflows resp = .ok ([], 0)) ∧
    (∀ v, lookupKey "data" fs = some v → pyIter v = none →
      listWorkflows (.obj fs) = .error "Failed to list workflows: TypeError") := by
  refine ⟨fun h => ?_, ?_, length_filterMap_parseRecord rows, fun h => ?_,
    fun hobj harr => ?_, fun v hv hiter => ?_⟩
  · simp [listWorkflows, h, pyIter]
  · rfl
  · simp [listWorkflows, h]
  · cases resp with
    | obj gs => exact absurd rfl (hobj gs)
    | arr xs => exact absurd rfl (harr xs)
    | null => rfl
    | boolean b => rfl
    | num n => rfl
    | str s => rfl
  · simp [listWorkflows, hv, hiter]

/-- Witness for C6 (amended): one well-formed record followed by one
malformed record (a bare number) yields exactly the typed summary and one
warning. -/
theorem list_workflows_normalization_witness :
    listWorkflows (.obj [("data", .arr
        [.obj [("active", .boolean true), ("id", .str "wf1"), ("name", .str "A"),
           ("createdAt", .str "t0"), ("updatedAt", .str "t1")],
         .num 7])]) =
      .ok ([{ active := true, id := "wf1", name := "A", nodes := 0,
              connections := 0, createdAt := "t0", updatedAt := "t1" }], 1) :=
  ((list_workflows_normalization
      [("data", .arr
        [.obj [("active", .boolean true), ("id", .str "wf1"), ("name", .str "A"),
           ("createdAt", .str "t0"), ("updatedAt", .str "t1")],
         .num 7])]
      [.obj [("active", .boolean true), ("id", .str "wf1"), ("name", .str "A"),
           ("createdAt", .str "t0"), ("updatedAt", .str "t1")],
         .num 7]
      Json.null).1 rfl).trans rfl

theorem lookupKey_none_no_key (fs : List (String × Json)) (k : String)
    (h : lookupKey k fs = none) : ∀ e ∈ fs, e.1 ≠ k := by
  induction fs with
  | nil => intro e he; cases he
  | cons e0 rest ih =>
    intro e he
    simp only [lookupKey] at h
    split at h
    · exact Option.noConfusion h
    · rcases List.mem_cons.mp he with rfl | he2
      · rename_i hne; exact hne
      · exact ih h e he2

theorem sanitizeCredsMap_all_placeholder (creds : List (String × Json)) :
    (sanitizeCredsMap creds).all (fun ce => isPlaceholderEntry ce.2) = true := by
  rw [List.all_eq_true]
  intro ce hce
  rcases List.mem_map.mp hce with ⟨ce0, _, rfl⟩
  rfl

theorem nodeCredsPlaceholder_sanitizeNode (n : Json) :
    nodeCredsPlaceholder (sanitizeNode n) = true := by
  cases n with
  | obj nfs =>
    rw [sanitizeNode]
    by_cases hg : (lookupKey "credentials" nfs).isSome = true
    · rw [if_pos hg]
      rw [nodeCredsPlaceholder, List.all_eq_true]
      intro e he
      rcases List.mem_map.mp he with ⟨e0, _, rfl⟩
      obtain ⟨k0, v0⟩ := e0
      by_cases hk : k0 = "credentials"
      · cases v0 <;> simp [sanitizeNodeField, hk, sanitizeCredsMap_all_placeholder]
      · simp [sanitizeNodeField, hk]
    · rw [if_neg hg]
      rw [nodeCredsPlaceholder, List.all_eq_true]
      intro e he
      have hnone : lookupKey "credentials" nfs = none := by
        cases hl : lookupKey "credentials" nfs with
        | none => rfl
        | some v => rw [hl] at hg; exact absurd rfl hg
      rw [if_neg (lookupKey_none_no_key nfs "credentials" hnone e he)]
  | null => rfl
  | boolean b => rfl
  | num m => rfl
  | str s => rfl
  | arr xs => rfl

theorem allCredsPlaceholder_sanitizeCredentials (w : Json) :
    allCredsPlaceholder (sanitizeCredentials w) = true := by
  cases w with
  | obj fs =>
    rw [sanitizeCredentials]
    rw [allCredsPlaceholder, List.all_eq_true]
    intro e he
    rcases List.mem_map.mp he with ⟨e0, _, rfl⟩
    obtain ⟨k0, v0⟩ := e0
    by_cases hk : k0 = "nodes"
    · cases v0 with
      | arr nodes =>
        simp only [sanitizeTopField, hk, if_true, if_pos]
        rw [List.all_eq_true]
        intro nd hnd
        rcases List.mem_map.mp hnd with ⟨n0, _, rfl⟩
        exact nodeCredsPlaceholder_sanitizeNode n0
      | null => simp [sanitizeTopField, hk]
      | boolean b => simp [sanitizeTopField, hk]
      | num m => simp [sanitizeTopField, hk]
      | str s => simp [sanitizeTopField, hk]
      | obj gs => simp [sanitizeTopField, hk]
    · simp [sanitizeTopField, hk]
  | null => rfl
  | boolean b => rfl
  | num m => rfl
  | str s => rfl
  | arr xs => rfl


theorem collectStrings_credPlaceholder :
    collectStrings credPlaceholder = credPlaceholderStrings := rfl

theorem mem_collectStringsObj_cons (e : String × Json) (fs : List (String × Json))
    (x : String) :
    x ∈ collectStringsObj (e :: fs) ↔
      x = e.1 ∨ x ∈ collectStrings e.2 ∨ x ∈ collectStringsObj fs := by
  simp [collectStringsObj]

theorem mem_collectStringsArr_cons (j : Json) (js : List Json) (x : String) :
    x ∈ collectStringsArr (j :: js) ↔
      x ∈ collectStrings j ∨ x ∈ collectStringsArr js := by
  simp [collectStringsArr]

theorem sanitizeNodeField_fst (e : String × Json) :
    (sanitizeNodeField e).1 = e.1 := by
  obtain ⟨k, v⟩ := e
  by_cases hk : k = "credentials" <;> cases v <;> simp [sanitizeNodeField, hk]

theorem scrubNodeField_fst (e : String × Json) :
    (scrubNodeField e).1 = e.1 := by
  obtain ⟨k, v⟩ := e
  by_cases hk : k = "credentials" <;> cases v <;> simp [scrubNodeField, hk]

theorem sanitizeTopField_fst (e : String × Json) :
    (sanitizeTopField e).1 = e.1 := by
  obtain ⟨k, v⟩ := e
  by_cases hk : k = "nodes" <;> cases v <;> simp [sanitizeTopField, hk]

theorem scrubTopField_fst (e : String × Json) :
    (scrubTopField e).1 = e.1 := by
  obtain ⟨k, v⟩ := e
  by_cases hk : k = "nodes" <;> cases v <;> simp [scrubTopField, hk]

theorem collect_sanitizeCredsMap (creds : List (String × Json)) (x : String)
    (h : x ∈ collectStringsObj (sanitizeCredsMap creds)) :
    x ∈ collectStringsObj (creds.map (fun ce => (ce.1, Json.null))) ∨
      x ∈ credPlaceholderStrings := by
  induction creds with
  | nil => simp [sanitizeCredsMap, collectStringsObj] at h
  | cons ce rest ih =>
    rw [show sanitizeCredsMap (ce :: rest) =
      (ce.1, credPlaceholder) :: sanitizeCredsMap rest from rfl] at h
    rcases (mem_collectStringsObj_cons _ _ x).mp h with h1 | h2 | h3
    · refine Or.inl ?_
      rw [List.map_cons]
      exact (mem_collectStringsObj_cons _ _ x).mpr (Or.inl h1)
    · exact Or.inr (by simpa [collectStrings_credPlaceholder] using h2)
    · rcases ih h3 with h4 | h4
      · refine Or.inl ?_
        rw [List.map_cons]
        exact (mem_collectStringsObj_cons _ _ x).mpr (Or.inr (Or.inr h4))
      · exact Or.inr h4

theorem collect_sanitizeNodeField (e : String × Json) (x : String)
    (h : x ∈ collectStrings (sanitizeNodeField e).2) :
    x ∈ collectStrings (scrubNodeField e).2 ∨ x ∈ credPlaceholderStrings := by
  obtain ⟨k, v⟩ := e
  by_cases hk : k = "credentials"
  · cases v with
    | obj creds =>
      simp only [sanitizeNodeField, scrubNodeField, hk, if_pos] at h ⊢
      exact collect_sanitizeCredsMap creds x h
    | null =>
      simp only [sanitizeNodeField, scrubNodeField, if_pos hk] at h ⊢
      exact Or.inl h
    | boolean b =>
      simp only [sanitizeNodeField, scrubNodeField, if_pos hk] at h ⊢
      exact Or.inl h
    | num m =>
      simp only [sanitizeNodeField, scrubNodeField, if_pos hk] at h ⊢
      exact Or.inl h
    | str s =>
      simp only [sanitizeNodeField, scrubNodeField, if_pos hk] at h ⊢
      exact Or.inl h
    | arr xs =>
      simp only [sanitizeNodeField, scrubNodeField, if_pos hk] at h ⊢
      exact Or.inl h
  · simp only [sanitizeNodeField, scrubNodeField, if_neg hk] at h ⊢
    exact Or.inl h

theorem collect_sanitizeNodeFields (nfs : List (String × Json)) (x : String)
    (h : x ∈ collectStringsObj (nfs.map sanitizeNodeField)) :
    x ∈ collectStringsObj (nfs.map scrubNodeField) ∨ x ∈ credPlaceholderStrings := by
  induction nfs with
  | nil => simp [collectStringsObj] at h
  | cons e rest ih =>
    rw [List.map_cons] at h
    rcases (mem_collectStringsObj_cons _ _ x).mp h with h1 | h2 | h3
    · refine Or.inl ?_
      rw [List.map_cons]
      refine (mem_collectStringsObj_cons _ _ x).mpr (Or.inl ?_)
      rw [h1, sanitizeNodeField_fst, ← scrubNodeField_fst]
    · rcases collect_sanitizeNodeField e x h2 with h4 | h4
      · refine Or.inl ?_
        rw [List.map_cons]
        exact (mem_collectStringsObj_cons _ _ x).mpr (Or.inr (Or.inl h4))
      · exact Or.inr h4
    · rcases ih h3 with h4 | h4
      · refine Or.inl ?_
        rw [List.map_cons]
        exact (mem_collectStringsObj_cons _ _ x).mpr (Or.inr (Or.inr h4))
      · exact Or.inr h4

theorem collect_sanitizeNode (n : Json) (x : String)
    (h : x ∈ collectStrings (sanitizeNode n)) :
    x ∈ collectStrings (scrubNode n) ∨ x ∈ credPlaceholderStrings := by
  cases n with
  | obj nfs =>
    simp only [sanitizeNode] at h
    simp only [scrubNode]
    by_cases hg : (lookupKey "credentials" nfs).isSome = true
    · rw [if_pos hg] at h
      rw [if_pos hg]
      exact collect_sanitizeNodeFields nfs x h
    · rw [if_neg hg] at h
      rw [if_neg hg]
      exact Or.inl h
  | null => exact Or.inl h
  | boolean b => exact Or.inl h
  | num m => exact Or.inl h
  | str s => exact Or.inl h
  | arr xs => exact Or.inl h

theorem collect_sanitizeNodes (nodes : List Json) (x : String)
    (h : x ∈ collectStringsArr (nodes.map sanitizeNode)) :
    x ∈ collectStringsArr (nodes.map scrubNode) ∨ x ∈ credPlaceholderStrings := by
  induction nodes with
  | nil => simp [collectStringsArr] at h
  | cons nd rest ih =>
    rw [List.map_cons] at h
    rcases (mem_collectStringsArr_cons _ _ x).mp h with h1 | h2
    · rcases collect_sanitizeNode nd x h1 with h3 | h3
      · refine Or.inl ?_
        rw [List.map_cons]
        exact (mem_collectStringsArr_cons _ _ x).mpr (Or.inl h3)
      · exact Or.inr h3
    · rcases ih h2 with h3 | h3
      · refine Or.inl ?_
        rw [List.map_cons]
        exact (mem_collectStringsArr_cons _ _ x).mpr (Or.inr h3)
      · exact Or.inr h3

theorem collect_sanitizeTopField (e : String × Json) (x : String)
    (h : x ∈ collectStrings (sanitizeTopField e).2) :
    x ∈ collectStrings (scrubTopField e).2 ∨ x ∈ credPlaceholderStrings := by
  obtain ⟨k, v⟩ := e
  by_cases hk : k = "nodes"
  · cases v with
    | arr nodes =>
      simp only [sanitizeTopField, scrubTopField, hk, if_pos] at h ⊢
      exact collect_sanitizeNodes nodes x h
    | null =>
      simp only [sanitizeTopField, scrubTopField, if_pos hk] at h ⊢
      exact Or.inl h
    | boolean b =>
      simp only [sanitizeTopField, scrubTopField, if_pos hk] at h ⊢
      exact Or.inl h
    | num m =>
      simp only [sanitizeTopField, scrubTopField, if_pos hk] at h ⊢
      exact Or.inl h
    | str s =>
      simp only [sanitizeTopField, scrubTopField, if_pos hk] at h ⊢
      exact Or.inl h
    | obj gs =>
      simp only [sanitizeTopField, scrubTopField, if_pos hk] at h ⊢
      exact Or.inl h
  · simp only [sanitizeTopField, scrubTopField, if_neg hk] at h ⊢
    exact Or.inl h

theorem collect_sanitizeTopFields (fs : List (String × Json)) (x : String)
    (h : x ∈ collectStringsObj (fs.map sanitizeTopField)) :
    x ∈ collectStringsObj (fs.map scrubTopField) ∨ x ∈ credPlaceholderStrings := by
  induction fs with
  | nil => simp [collectStringsObj] at h
  | cons e rest ih =>
    rw [List.map_cons] at h
    rcases (mem_collectStringsObj_cons _ _ x).mp h with h1 | h2 | h3
    · refine Or.inl ?_
      rw [List.map_cons]
      refine (mem_collectStringsObj_cons _ _ x).mpr (Or.inl ?_)
      rw [h1, sanitizeTopField_fst, ← scrubTopField_fst]
    · rcases collect_sanitizeTopField e x h2 with h4 | h4
      · refine Or.inl ?_
        rw [List.map_cons]
        exact (mem_collectStringsObj_cons _ _ x).mpr (Or.inr (Or.inl h4))
      · exact Or.inr h4
    · rcases ih h3 with h4 | h4
      · refine Or.inl ?_
        rw [List.map_cons]
        exact (mem_collectStringsObj_cons _ _ x).mpr (Or.inr (Or.inr h4))
      · exact Or.inr h4

theorem collect_sanitizeCredentials (w : Json) (x : String)
    (h : x ∈ collectStrings (sanitizeCredentials w)) :
    x ∈ collectStrings (scrubCredentials w) ∨ x ∈ credPlaceholderStrings := by
  cases w with
  | obj fs => exact collect_sanitizeTopFields fs x h
  | null => exact Or.inl h
  | boolean b => exact Or.inl h
  | num m => exact Or.inl h
  | str s => exact Or.inl h
  | arr xs => exact Or.inl h

/-- C1: on a well-formed workflow payload, `_sanitize_credentials` leaves
every credentials entry — whatever its credential type key — equal to the
fixed placeholder pair `id = REMOVED_FOR_SECURITY, name =
CREDENTIAL_PLACEHOLDER`; and an original credential identifier (a string
occurring in the input only inside credentials entry values, and distinct
from the placeholder text) occurs nowhere in the sanitized output. -/
theorem sanitize_credentials_placeholders_and_no_leak (w : Json) (ident : String)
    (hwf : wfPayload w = true)
    (hout : ident ∉ collectStrings (scrubCredentials w))
    (hph : ident ∉ credPlaceholderStrings) :
    allCredsPlaceholder (sanitizeCredentials w) = true ∧
    ident ∉ collectStrings (sanitizeCredentials w) := by
  refine ⟨allCredsPlaceholder_sanitizeCredentials w, fun hmem => ?_⟩
  rcases collect_sanitizeCredentials w ident hmem with h | h
  · exact hout h
  · exact hph h

/-- Witness for C1: one node with an `httpBasicAuth` credential whose
identifier `cred-42` occurs only there. -/
theorem sanitize_credentials_placeholders_and_no_leak_witness :
    allCredsPlaceholder (sanitizeCredentials (.obj [("name", .str "My Workflow"),
      ("nodes", .arr [.obj [("name", .str "Node A"),
        ("credentials", .obj [("httpBasicAuth",
          .obj [("id", .str "cred-42"), ("name", .str "prod-creds")])])]])])) = true ∧
    "cred-42" ∉ collectStrings (sanitizeCredentials (.obj [("name", .str "My Workflow"),
      ("nodes", .arr [.obj [("name", .str "Node A"),
        ("credentials", .obj [("httpBasicAuth",
          .obj [("id", .str "cred-42"), ("name", .str "prod-creds")])])]])])) :=
  sanitize_credentials_placeholders_and_no_leak _ "cred-42"
    (by decide) (by decide) (by decide)

/-- C2: for a valid identifier and a well-formed fetched payload,
`export_workflow(id, include_credentials=False)` returns a bundle whose
workflow is the sanitized payload — an identifier occurring in the source
payload only inside credentials entry values appears nowhere in it — with
the flag recorded as `False`; `export_workflow(id, include_credentials=True)`
returns the payload unchanged (sanitization skipped), records the flag, and
logs the security warning. -/
theorem export_workflow_credential_modes (workflowId : String) (payload : Json)
    (ident now : String)
    (hwid : pyStrip workflowId ≠ "")
    (hwf : wfPayload payload = true)
    (hout : ident ∉ collectStrings (scrubCredentials payload))
    (hph : ident ∉ credPlaceholderStrings) :
    (∃ b log, exportWorkflow workflowId payload false now = .ok (b, log) ∧
      b.workflow = sanitizeCredentials payload ∧
      allCredsPlaceholder b.workflow = true ∧
      ident ∉ collectStrings b.workflow ∧
      b.credentials_included = false) ∧
    (∃ b log, exportWorkflow workflowId payload true now = .ok (b, log) ∧
      b.workflow = payload ∧
      b.credentials_included = true ∧
      (LogLevel.warningL,
        "Exporting workflow WITH credentials - ensure secure handling!") ∈ log) := by
  have e1 : exportWorkflow workflowId payload false now =
      .ok ({ workflow := sanitizeCredentials payload, exported_at := now,
             exported_by := "AI Admin Hub", credentials_included := false },
        [(LogLevel.infoL, "Exporting workflow: " ++ pyStrip workflowId ++
            " (credentials=" ++ "False" ++ ")"),
         (LogLevel.debugL, "Sanitized credentials from workflow export")]) := by
    unfold exportWorkflow
    rw [if_neg hwid]
    rfl
  have e2 : exportWorkflow workflowId payload true now =
      .ok ({ workflow := payload, exported_at := now,
             exported_by := "AI Admin Hub", credentials_included := true },
        [(LogLevel.infoL, "Exporting workflow: " ++ pyStrip workflowId ++
            " (credentials=" ++ "True" ++ ")"),
         (LogLevel.warningL,
           "Exporting workflow WITH credentials - ensure secure handling!")]) := by
    unfold exportWorkflow
    rw [if_neg hwid]
    rfl
  constructor
  · refine ⟨_, _, e1, rfl, allCredsPlaceholder_sanitizeCredentials payload,
      fun hmem => ?_, rfl⟩
    rcases collect_sanitizeCredentials payload ident hmem with h | h
    · exact hout h
    · exact hph h
  · exact ⟨_, _, e2, rfl, rfl, by simp⟩

/-- Witness for C2: exporting the one-node payload without credentials hides
`cred-42`. -/
theorem export_workflow_credential_modes_witness :
    ∃ b log, exportWorkflow "abc123" (.obj [("name", .str "My Workflow"),
      ("nodes", .arr [.obj [("name", .str "Node A"),
        ("credentials", .obj [("httpBasicAuth",
          .obj [("id", .str "cred-42"), ("name", .str "prod-creds")])])]])])
        false "123.0" = Except.ok (b, log) ∧
      b.workflow = sanitizeCredentials (.obj [("name", .str "My Workflow"),
        ("nodes", .arr [.obj [("name", .str "Node A"),
          ("credentials", .obj [("httpBasicAuth",
            .obj [("id", .str "cred-42"), ("name", .str "prod-creds")])])]])]) ∧
      allCredsPlaceholder b.workflow = true ∧
      "cred-42" ∉ collectStrings b.workflow ∧
      b.credentials_included = false :=
  (export_workflow_credential_modes "abc123" (.obj [("name", .str "My Workflow"),
      ("nodes", .arr [.obj [("name", .str "Node A"),
        ("credentials", .obj [("httpBasicAuth",
          .obj [("id", .str "cred-42"), ("name", .str "prod-creds")])])]])])
      "cred-42" "123.0" (by decide) (by decide) (by decide) (by decide)).1

theorem heapWF_alloc (h : Heap) (o : PObj) (hwf : heapWF h)
    (ho : ∀ r ∈ objRefs o, r < h.next) : heapWF (alloc h o).1 := by
  obtain ⟨hdom, hrefs⟩ := hwf
  constructor
  · intro a ha
    have h1 : (alloc h o).1.next = h.next + 1 := rfl
    rw [h1] at ha
    show (if a = h.next then some o else h.objs a) = none
    rw [if_neg (by omega)]
    exact hdom a (by omega)
  · intro a ob hob r hr
    show r < h.next + 1
    by_cases hah : a = h.next
    · subst hah
      have hoo : ob = o := by
        have h2 : (if h.next = h.next then some o else h.objs h.next) = some ob := hob
        rw [if_pos rfl] at h2
        exact (Option.some.inj h2).symm
      subst hoo
      exact Nat.lt_succ_of_lt (ho r hr)
    · have h2 : h.objs a = some ob := by
        have h3 : (if a = h.next then some o else h.objs a) = some ob := hob
        rwa [if_neg hah] at h3
      exact Nat.lt_succ_of_lt (hrefs a ob h2 r hr)

theorem heapWF_setObj (h : Heap) (rr : Nat) (o : PObj) (hwf : heapWF h)
    (hlt : rr < h.next) (ho : ∀ r ∈ objRefs o, r < h.next) :
    heapWF (setObj h rr o) := by
  obtain ⟨hdom, hrefs⟩ := hwf
  constructor
  · intro a ha
    have ha' : h.next ≤ a := ha
    show (if a = rr then some o else h.objs a) = none
    rw [if_neg (by omega)]
    exact hdom a ha'
  · intro a ob hob r hr
    show r < h.next
    by_cases hah : a = rr
    · subst hah
      have hoo : ob = o := by
        have h2 : (if a = a then some o else h.objs a) = some ob := hob
        rw [if_pos rfl] at h2
        exact (Option.some.inj h2).symm
      subst hoo
      exact ho r hr
    · have h2 : h.objs a = some ob := by
        have h3 : (if a = rr then some o else h.objs a) = some ob := hob
        rwa [if_neg hah] at h3
      exact hrefs a ob h2 r hr

theorem objRefs_placeholderObj : objRefs placeholderObj = [] := rfl

theorem lookupKeyP_mem_fieldRefs (fs : List (String × PVal)) (k : String) (rc : Nat)
    (h : lookupKeyP k fs = some (.vref rc)) : rc ∈ fieldRefs fs := by
  induction fs with
  | nil => simp [lookupKeyP] at h
  | cons e rest ih =>
    simp only [lookupKeyP] at h
    split at h
    · have : e.2 = PVal.vref rc := Option.some.inj h
      simp [fieldRefs, this, pvalRefs]
    · simp only [fieldRefs, List.mem_append]
      exact Or.inr (ih h)

theorem mem_fieldRefs_of_mem (fs : List (String × PVal)) (k : String) (p : Nat)
    (h : (k, PVal.vref p) ∈ fs) : p ∈ fieldRefs fs := by
  induction fs with
  | nil => cases h
  | cons e rest ih =>
    rcases List.mem_cons.mp h with rfl | h2
    · simp [fieldRefs, pvalRefs]
    · simp only [fieldRefs, List.mem_append]
      exact Or.inr (ih h2)

theorem mem_elemRefs_of_mem (xs : List PVal) (x : Nat)
    (h : PVal.vref x ∈ xs) : x ∈ elemRefs xs := by
  induction xs with
  | nil => cases h
  | cons v rest ih =>
    rcases List.mem_cons.mp h with rfl | h2
    · simp [elemRefs, pvalRefs]
    · simp only [elemRefs, List.mem_append]
      exact Or.inr (ih h2)

theorem sanitizeCredsDictH_spec (creds : List (String × PVal)) (h : Heap) :
    (sanitizeCredsDictH h creds).1.next = h.next + creds.length ∧
    (∀ a, a < h.next → (sanitizeCredsDictH h creds).1.objs a = h.objs a) ∧
    ((sanitizeCredsDictH h creds).2.map Prod.fst = creds.map Prod.fst) ∧
    (∀ e ∈ (sanitizeCredsDictH h creds).2, ∃ p, e.2 = PVal.vref p ∧
      h.next ≤ p ∧ (sanitizeCredsDictH h creds).1.objs p = some placeholderObj) := by
  induction creds generalizing h with
  | nil =>
    refine ⟨rfl, fun a _ => rfl, rfl, fun e he => absurd he (List.not_mem_nil e)⟩
  | cons e rest ih =>
    obtain ⟨ihn, ihf, ihk, ihe⟩ := ih (alloc h placeholderObj).1
    have hstep : sanitizeCredsDictH h (e :: rest) =
        ((sanitizeCredsDictH (alloc h placeholderObj).1 rest).1,
         (e.1, PVal.vref (alloc h placeholderObj).2) ::
           (sanitizeCredsDictH (alloc h placeholderObj).1 rest).2) := rfl
    have hnext1 : (alloc h placeholderObj).1.next = h.next + 1 := rfl
    rw [hstep]
    refine ⟨?_, ?_, ?_, ?_⟩
    · simp only [ihn, hnext1, List.length_cons]
      omega
    · intro a ha
      rw [ihf a (by omega)]
      show (if a = h.next then some placeholderObj else h.objs a) = h.objs a
      rw [if_neg (by omega)]
    · simp only [List.map_cons, ihk]
    · intro e2 he2
      rcases List.mem_cons.mp he2 with rfl | h2
      · refine ⟨h.next, rfl, Nat.le_refl _, ?_⟩
        rw [ihf h.next (by omega)]
        show (if h.next = h.next then some placeholderObj else h.objs h.next) =
          some placeholderObj
        rw [if_pos rfl]
      · obtain ⟨p, hp1, hp2, hp3⟩ := ihe e2 h2
        exact ⟨p, hp1, by omega, hp3⟩

theorem sanitizeCredsDictH_wf (creds : List (String × PVal)) (h : Heap)
    (hwf : heapWF h) : heapWF (sanitizeCredsDictH h creds).1 := by
  induction creds generalizing h with
  | nil => exact hwf
  | cons e rest ih =>
    exact ih (alloc h placeholderObj).1
      (heapWF_alloc h placeholderObj hwf (by simp [objRefs_placeholderObj]))

theorem mem_fieldRefs_inv (fs : List (String × PVal)) (r : Nat)
    (h : r ∈ fieldRefs fs) : ∃ k, (k, PVal.vref r) ∈ fs := by
  induction fs with
  | nil => cases h
  | cons e rest ih =>
    simp only [fieldRefs, List.mem_append] at h
    rcases h with h1 | h2
    · refine ⟨e.1, ?_⟩
      cases hv : e.2 with
      | vref q =>
        rw [hv] at h1
        simp only [pvalRefs, List.mem_singleton] at h1
        subst h1
        have : e = (e.1, PVal.vref r) := by rw [← hv]
        rw [← this]
        exact List.mem_cons_self _ _
      | vnull => rw [hv] at h1; cases h1
      | vbool b => rw [hv] at h1; cases h1
      | vint n => rw [hv] at h1; cases h1
      | vstr s => rw [hv] at h1; cases h1
    · obtain ⟨k, hk⟩ := ih h2
      exact ⟨k, List.mem_cons_of_mem _ hk⟩

theorem sanitizeNodeH_write (h : Heap) (rnode rc : Nat)
    (nfs creds : List (String × PVal))
    (hnode : h.objs rnode = some (.pdict nfs))
    (hlk : lookupKeyP "credentials" nfs = some (.vref rc))
    (hrc : h.objs rc = some (.pdict creds)) :
    sanitizeNodeH h (.vref rnode) =
      setObj (sanitizeCredsDictH h creds).1 rc
        (.pdict (sanitizeCredsDictH h creds).2) := by
  simp [sanitizeNodeH, hnode, hlk, hrc]

theorem sanitizeNodeH_noop (h : Heap) (nv : PVal)
    (hno : ∀ rnode nfs rc creds, nv = PVal.vref rnode →
      h.objs rnode = some (.pdict nfs) →
      lookupKeyP "credentials" nfs = some (.vref rc) →
      h.objs rc = some (.pdict creds) → False) :
    sanitizeNodeH h nv = h := by
  cases nv with
  | vnull => rfl
  | vbool b => rfl
  | vint n => rfl
  | vstr s => rfl
  | vref rnode =>
    have hred : sanitizeNodeH h (.vref rnode) =
        (match h.objs rnode with
          | some (PObj.pdict nfs) =>
            (match lookupKeyP "credentials" nfs with
              | some (PVal.vref rc) =>
                (match h.objs rc with
                  | some (PObj.pdict creds) =>
                    setObj (sanitizeCredsDictH h creds).1 rc
                      (.pdict (sanitizeCredsDictH h creds).2)
                  | _ => h)
              | _ => h)
          | _ => h) := rfl
    rw [hred]
    cases hobj : h.objs rnode with
    | none => rfl
    | some o =>
      cases o with
      | plist xs => rfl
      | pdict nfs =>
        show (match lookupKeyP "credentials" nfs with
          | some (PVal.vref rc) =>
            (match h.objs rc with
              | some (PObj.pdict creds) =>
                setObj (sanitizeCredsDictH h creds).1 rc
                  (.pdict (sanitizeCredsDictH h creds).2)
              | _ => h)
          | _ => h) = h
        cases hlk : lookupKeyP "credentials" nfs with
        | none => rfl
        | some v =>
          cases v with
          | vnull => rfl
          | vbool b => rfl
          | vint n => rfl
          | vstr s => rfl
          | vref rc =>
            show (match h.objs rc with
              | some (PObj.pdict creds) =>
                setObj (sanitizeCredsDictH h creds).1 rc
                  (.pdict (sanitizeCredsDictH h creds).2)
              | _ => h) = h
            cases hrc : h.objs rc with
            | none => rfl
            | some o2 =>
              cases o2 with
              | plist xs => rfl
              | pdict creds =>
                exact (hno rnode nfs rc creds rfl hobj hlk hrc).elim

theorem placeholderified_transfer (base : Nat) (h h2 : Heap) (rc : Nat)
    (keys : List String)
    (hph : Placeholderified base h rc keys)
    (hrc : h2.objs rc = h.objs rc)
    (hkeep : ∀ p, base < p → h.objs p = some placeholderObj →
      h2.objs p = some placeholderObj) :
    Placeholderified base h2 rc keys := by
  obtain ⟨creds', hc1, hc2, hc3⟩ := hph
  refine ⟨creds', by rw [hrc]; exact hc1, hc2, fun e he => ?_⟩
  obtain ⟨p, hp1, hp2, hp3⟩ := hc3 e he
  exact ⟨p, hp1, hp2, hkeep p hp2 hp3⟩

theorem placeholderified_write (base : Nat) (hcur : Heap) (rc : Nat)
    (creds' : List (String × PVal))
    (hb : base < hcur.next) (hrclt : rc < hcur.next) :
    Placeholderified base
      (setObj (sanitizeCredsDictH hcur creds').1 rc
        (.pdict (sanitizeCredsDictH hcur creds').2))
      rc (creds'.map Prod.fst) := by
  obtain ⟨cdn, cdf, cdk, cde⟩ := sanitizeCredsDictH_spec creds' hcur
  refine ⟨(sanitizeCredsDictH hcur creds').2, ?_, cdk, fun e he => ?_⟩
  · show (if rc = rc then some (.pdict (sanitizeCredsDictH hcur creds').2)
      else (sanitizeCredsDictH hcur creds').1.objs rc) = _
    rw [if_pos rfl]
  · obtain ⟨p, hp1, hp2, hp3⟩ := cde e he
    refine ⟨p, hp1, by omega, ?_⟩
    show (if p = rc then some (.pdict (sanitizeCredsDictH hcur creds').2)
      else (sanitizeCredsDictH hcur creds').1.objs p) = some placeholderObj
    rw [if_neg (by omega)]
    exact hp3

theorem sanitizeNodes_fold_spec (h0 : Heap) (nodes : List PVal) (ocpy : PObj)
    (hwf0 : heapWF h0)
    (SEP : ∀ nv ∈ nodes, ∀ a, credRefOf h0 nv = some a → PVal.vref a ∉ nodes)
    (hnlt : ∀ x, PVal.vref x ∈ nodes → x < h0.next) :
    ∀ l : List PVal, (∀ nv ∈ l, nv ∈ nodes) →
    ∀ hcur : Heap,
    heapWF hcur →
    h0.next < hcur.next →
    (∀ rn2 nfs2, PVal.vref rn2 ∈ nodes → h0.objs rn2 = some (.pdict nfs2) →
      hcur.objs rn2 = some (.pdict nfs2)) →
    (∀ a, a < h0.next → hcur.objs a = h0.objs a ∨
      ∃ c0 c1, h0.objs a = some (.pdict c0) ∧ hcur.objs a = some (.pdict c1)) →
    hcur.objs h0.next = some ocpy →
    (∀ nv ∈ nodes, ∀ rn2 nfs2 rc2 creds2, nv = PVal.vref rn2 →
      h0.objs rn2 = some (.pdict nfs2) →
      lookupKeyP "credentials" nfs2 = some (.vref rc2) →
      h0.objs rc2 = some (.pdict creds2) →
      (hcur.objs rc2 = some (.pdict creds2) ∨
        Placeholderified h0.next hcur rc2 (creds2.map Prod.fst)) ∧
      (nv ∉ l → Placeholderified h0.next hcur rc2 (creds2.map Prod.fst))) →
    (heapWF (List.foldl sanitizeNodeH hcur l) ∧
     h0.next < (List.foldl sanitizeNodeH hcur l).next ∧
     (∀ rn2 nfs2, PVal.vref rn2 ∈ nodes → h0.objs rn2 = some (.pdict nfs2) →
       (List.foldl sanitizeNodeH hcur l).objs rn2 = some (.pdict nfs2)) ∧
     (∀ a, a < h0.next → (List.foldl sanitizeNodeH hcur l).objs a = h0.objs a ∨
       ∃ c0 c1, h0.objs a = some (.pdict c0) ∧
         (List.foldl sanitizeNodeH hcur l).objs a = some (.pdict c1)) ∧
     (List.foldl sanitizeNodeH hcur l).objs h0.next = some ocpy ∧
     (∀ nv ∈ nodes, ∀ rn2 nfs2 rc2 creds2, nv = PVal.vref rn2 →
       h0.objs rn2 = some (.pdict nfs2) →
       lookupKeyP "credentials" nfs2 = some (.vref rc2) →
       h0.objs rc2 = some (.pdict creds2) →
       Placeholderified h0.next (List.foldl sanitizeNodeH hcur l) rc2
         (creds2.map Prod.fst))) := by
  intro l
  induction l with
  | nil =>
    intro _ hcur I1 I2 I3 I4 I5 I6
    refine ⟨I1, I2, I3, I4, I5, ?_⟩
    intro nv hnv rn2 nfs2 rc2 creds2 hveq hn2 hlk2 hc2
    exact (I6 nv hnv rn2 nfs2 rc2 creds2 hveq hn2 hlk2 hc2).2 (List.not_mem_nil nv)
  | cons nv rest ih =>
    intro hl hcur I1 I2 I3 I4 I5 I6
    rw [List.foldl_cons]
    have hnv : nv ∈ nodes := hl nv (List.mem_cons_self _ _)
    have hl' : ∀ nv2 ∈ rest, nv2 ∈ nodes := fun nv2 hm => hl nv2 (List.mem_cons_of_mem _ hm)
    by_cases hch : ∃ rn2 nfs2 rc2 creds2, nv = PVal.vref rn2 ∧
        h0.objs rn2 = some (.pdict nfs2) ∧
        lookupKeyP "credentials" nfs2 = some (.vref rc2) ∧
        h0.objs rc2 = some (.pdict creds2)
    · obtain ⟨rn2, nfs2, rc2, creds2, rfl, hn2, hlk2, hc2⟩ := hch
      have hrn2lt : rn2 < h0.next := hnlt rn2 hnv
      have hrc2lt : rc2 < h0.next :=
        hwf0.2 rn2 (.pdict nfs2) hn2 rc2
          (lookupKeyP_mem_fieldRefs nfs2 "credentials" rc2 hlk2)
      have hcrednv : credRefOf h0 (.vref rn2) = some rc2 := by
        simp [credRefOf, hn2, hlk2]
      have hsep2 : PVal.vref rc2 ∉ nodes := SEP _ hnv rc2 hcrednv
      have hcurn : hcur.objs rn2 = some (.pdict nfs2) := I3 rn2 nfs2 hnv hn2
      obtain ⟨hcore, _⟩ := I6 _ hnv rn2 nfs2 rc2 creds2 rfl hn2 hlk2 hc2
      obtain ⟨creds', hcc, hkeys⟩ :
          ∃ creds', hcur.objs rc2 = some (.pdict creds') ∧
            creds'.map Prod.fst = creds2.map Prod.fst := by
        rcases hcore with hc | hph
        · exact ⟨creds2, hc, rfl⟩
        · obtain ⟨c', a1, a2, _⟩ := hph
          exact ⟨c', a1, a2⟩
      have hstep : sanitizeNodeH hcur (.vref rn2) =
          setObj (sanitizeCredsDictH hcur creds').1 rc2
            (.pdict (sanitizeCredsDictH hcur creds').2) :=
        sanitizeNodeH_write hcur rn2 rc2 nfs2 creds' hcurn hlk2 hcc
      rw [hstep]
      obtain ⟨cdn, cdf, cdk, cde⟩ := sanitizeCredsDictH_spec creds' hcur
      have hwfcd : heapWF (sanitizeCredsDictH hcur creds').1 :=
        sanitizeCredsDictH_wf creds' hcur I1
      have hnext2 : (setObj (sanitizeCredsDictH hcur creds').1 rc2
          (.pdict (sanitizeCredsDictH hcur creds').2)).next =
          hcur.next + creds'.length := cdn
      have hobjs2 : ∀ a, (setObj (sanitizeCredsDictH hcur creds').1 rc2
          (.pdict (sanitizeCredsDictH hcur creds').2)).objs a =
          if a = rc2 then some (.pdict (sanitizeCredsDictH hcur creds').2)
          else (sanitizeCredsDictH hcur creds').1.objs a := fun a => rfl
      have hframe2 : ∀ a, a < hcur.next → a ≠ rc2 →
          (setObj (sanitizeCredsDictH hcur creds').1 rc2
            (.pdict (sanitizeCredsDictH hcur creds').2)).objs a = hcur.objs a := by
        intro a ha hne
        rw [hobjs2 a, if_neg hne, cdf a ha]
      have hph2 : Placeholderified h0.next
          (setObj (sanitizeCredsDictH hcur creds').1 rc2
            (.pdict (sanitizeCredsDictH hcur creds').2)) rc2 (creds2.map Prod.fst) := by
        rw [← hkeys]
        exact placeholderified_write h0.next hcur rc2 creds' I2 (by omega)
      have htrans : ∀ rc' keys', rc' < h0.next → rc' ≠ rc2 →
          Placeholderified h0.next hcur rc' keys' →
          Placeholderified h0.next (setObj (sanitizeCredsDictH hcur creds').1 rc2
            (.pdict (sanitizeCredsDictH hcur creds').2)) rc' keys' := by
        intro rc' keys' hlt hne hph
        refine placeholderified_transfer h0.next hcur _ rc' keys' hph ?_ ?_
        · exact hframe2 rc' (by omega) hne
        · intro p hp hobj
          have hplt : p < hcur.next := by
            by_contra hge
            rw [I1.1 p (by omega)] at hobj
            exact Option.noConfusion hobj
          exact (hframe2 p hplt (by omega)).trans hobj
      refine ih hl' _ ?_ ?_ ?_ ?_ ?_ ?_
      · -- heapWF
        refine heapWF_setObj _ rc2 _ hwfcd (by omega) ?_
        intro r hr
        obtain ⟨k, hk⟩ := mem_fieldRefs_inv _ r hr
        obtain ⟨p, hp1, hp2, hp3⟩ := cde (k, PVal.vref r) hk
        have hpr : p = r := (PVal.vref.inj hp1).symm
        subst hpr
        by_contra hge
        rw [hwfcd.1 p (by omega)] at hp3
        exact Option.noConfusion hp3
      · omega
      · intro rn3 nfs3 h3mem h3eq
        have hne : rn3 ≠ rc2 := fun hra => hsep2 (hra ▸ h3mem)
        rw [hframe2 rn3 (by have := hnlt rn3 h3mem; omega) hne]
        exact I3 rn3 nfs3 h3mem h3eq
      · intro a ha
        by_cases hae : a = rc2
        · subst hae
          refine Or.inr ⟨creds2, (sanitizeCredsDictH hcur creds').2, hc2, ?_⟩
          rw [hobjs2 a, if_pos rfl]
        · rw [hframe2 a (by omega) hae]
          exact I4 a ha
      · rw [hframe2 h0.next (by omega) (by omega)]
        exact I5
      · intro nv3 h3mem rn3 nfs3 rc3 creds3 hveq3 hn3 hlk3 hc3
        have hrc3lt : rc3 < h0.next :=
          hwf0.2 rn3 (.pdict nfs3) hn3 rc3
            (lookupKeyP_mem_fieldRefs nfs3 "credentials" rc3 hlk3)
        by_cases heq : rc3 = rc2
        · subst heq
          have hcr : creds3 = creds2 := by
            rw [hc2] at hc3
            exact (PObj.pdict.inj (Option.some.inj hc3)).symm
          constructor
          · exact Or.inr (by rw [hcr]; exact hph2)
          · intro _
            rw [hcr]
            exact hph2
        · obtain ⟨hcore3, hdone3⟩ := I6 nv3 h3mem rn3 nfs3 rc3 creds3 hveq3 hn3 hlk3 hc3
          constructor
          · rcases hcore3 with hcc3 | hph3
            · exact Or.inl (by rw [hframe2 rc3 (by omega) heq]; exact hcc3)
            · exact Or.inr (htrans rc3 _ hrc3lt heq hph3)
          · intro hnin
            by_cases hv3 : nv3 = PVal.vref rn2
            · exfalso
              rw [hv3] at hveq3
              have hrn : rn2 = rn3 := PVal.vref.inj hveq3
              subst hrn
              rw [hn2] at hn3
              have hnfs : nfs2 = nfs3 := PObj.pdict.inj (Option.some.inj hn3)
              subst hnfs
              rw [hlk2] at hlk3
              exact heq (PVal.vref.inj (Option.some.inj hlk3)).symm
            · have hnin2 : nv3 ∉ PVal.vref rn2 :: rest := by
                intro hmem3
                rcases List.mem_cons.mp hmem3 with h | h
                · exact hv3 h
                · exact hnin h
              exact htrans rc3 _ hrc3lt heq (hdone3 hnin2)
    · have hstep : sanitizeNodeH hcur nv = hcur := by
        refine sanitizeNodeH_noop hcur nv ?_
        intro rnode nfs rc creds hveq hcobj hclk hcrc
        have hrnlt : rnode < h0.next := hnlt rnode (hveq ▸ hnv)
        have hn0 : h0.objs rnode = some (.pdict nfs) := by
          rcases I4 rnode hrnlt with heq4 | ⟨c0, c1, hc0, hc1⟩
          · rw [← heq4]
            exact hcobj
          · have hcurn : hcur.objs rnode = some (.pdict c0) :=
              I3 rnode c0 (hveq ▸ hnv) hc0
            rw [hcurn] at hcobj
            rw [hc0, PObj.pdict.inj (Option.some.inj hcobj)]
        have hrclt : rc < h0.next :=
          hwf0.2 rnode (.pdict nfs) hn0 rc
            (lookupKeyP_mem_fieldRefs nfs "credentials" rc hclk)
        rcases I4 rc hrclt with heq4 | ⟨c0, c1, hc0, hc1⟩
        · exact hch ⟨rnode, nfs, rc, creds, hveq, hn0, hclk, by rw [heq4] at hcrc; exact hcrc⟩
        · exact hch ⟨rnode, nfs, rc, c0, hveq, hn0, hclk, hc0⟩
      rw [hstep]
      refine ih hl' hcur I1 I2 I3 I4 I5 ?_
      intro nv3 h3mem rn3 nfs3 rc3 creds3 hveq3 hn3 hlk3 hc3
      obtain ⟨hcore3, hdone3⟩ := I6 nv3 h3mem rn3 nfs3 rc3 creds3 hveq3 hn3 hlk3 hc3
      refine ⟨hcore3, fun hnin => ?_⟩
      by_cases hv3 : nv3 = nv
      · exfalso
        exact hch ⟨rn3, nfs3, rc3, creds3, hv3 ▸ hveq3, hn3, hlk3, hc3⟩
      · refine hdone3 ?_
        intro hmem3
        rcases List.mem_cons.mp hmem3 with h | h
        · exact hv3 h
        · exact hnin h

/-- C9: `_sanitize_credentials` copies only the top-level mapping
(`workflow_data.copy()` is shallow): the returned reference is fresh but
carries the caller's own field-value list, so its `"nodes"` entry still
references the same nodes list and the same node dict objects as the input;
the placeholder replacement is an in-place assignment through those shared
objects, so the credentials dict reachable from the caller's ORIGINAL
reference holds only placeholder references afterwards — the input is not
preserved unchanged by sanitization. -/
theorem sanitize_credentials_shallow_copy_mutates_input
    (h0 : Heap) (r rn rnode rc : Nat)
    (fs nfs creds : List (String × PVal)) (nodes : List PVal)
    (ck : String) (v0 : PVal)
    (hwf : heapWF h0)
    (hr : h0.objs r = some (.pdict fs))
    (hn : lookupKeyP "nodes" fs = some (.vref rn))
    (hrn : h0.objs rn = some (.plist nodes))
    (SEP : ∀ nv ∈ nodes, ∀ a, credRefOf h0 nv = some a → PVal.vref a ∉ nodes)
    (hmem : PVal.vref rnode ∈ nodes)
    (hnode : h0.objs rnode = some (.pdict nfs))
    (hcred : lookupKeyP "credentials" nfs = some (.vref rc))
    (hcreds : h0.objs rc = some (.pdict creds))
    (hentry : (ck, v0) ∈ creds) :
    (sanitizeCredentialsH h0 r).2 = h0.next ∧
    (sanitizeCredentialsH h0 r).1.objs (sanitizeCredentialsH h0 r).2 =
      some (.pdict fs) ∧
    (sanitizeCredentialsH h0 r).1.objs rn = some (.plist nodes) ∧
    (sanitizeCredentialsH h0 r).1.objs rnode = some (.pdict nfs) ∧
    Placeholderified h0.next (sanitizeCredentialsH h0 r).1 rc (creds.map Prod.fst) ∧
    (sanitizeCredentialsH h0 r).1.objs rc ≠ h0.objs rc := by
  have hrnlt : rn < h0.next :=
    hwf.2 r (.pdict fs) hr rn (lookupKeyP_mem_fieldRefs fs "nodes" rn hn)
  have h1rn : (alloc h0 (.pdict fs)).1.objs rn = some (.plist nodes) := by
    show (if rn = h0.next then some (.pdict fs) else h0.objs rn) = _
    rw [if_neg (by omega)]
    exact hrn
  have hsred : sanitizeCredentialsH h0 r =
      (List.foldl sanitizeNodeH (alloc h0 (.pdict fs)).1 nodes, h0.next) := by
    simp only [sanitizeCredentialsH, hr, hn, h1rn]
    rfl
  have hnlt : ∀ x, PVal.vref x ∈ nodes → x < h0.next := fun x hx =>
    hwf.2 rn (.plist nodes) hrn x (mem_elemRefs_of_mem nodes x hx)
  have I1 : heapWF (alloc h0 (.pdict fs)).1 :=
    heapWF_alloc h0 (.pdict fs) hwf (hwf.2 r (.pdict fs) hr)
  have I2 : h0.next < (alloc h0 (.pdict fs)).1.next := by
    have h2 : (alloc h0 (.pdict fs)).1.next = h0.next + 1 := rfl
    omega
  have I3 : ∀ rn2 nfs2, PVal.vref rn2 ∈ nodes →
      h0.objs rn2 = some (.pdict nfs2) →
      (alloc h0 (.pdict fs)).1.objs rn2 = some (.pdict nfs2) := by
    intro rn2 nfs2 hm he
    show (if rn2 = h0.next then some (.pdict fs) else h0.objs rn2) = _
    rw [if_neg (by have := hnlt rn2 hm; omega)]
    exact he
  have I4 : ∀ a, a < h0.next →
      (alloc h0 (.pdict fs)).1.objs a = h0.objs a ∨
      ∃ c0 c1, h0.objs a = some (.pdict c0) ∧
        (alloc h0 (.pdict fs)).1.objs a = some (.pdict c1) := by
    intro a ha
    refine Or.inl ?_
    show (if a = h0.next then some (.pdict fs) else h0.objs a) = _
    rw [if_neg (by omega)]
  have I5 : (alloc h0 (.pdict fs)).1.objs h0.next = some (.pdict fs) := by
    show (if h0.next = h0.next then some (.pdict fs) else h0.objs h0.next) = _
    rw [if_pos rfl]
  have I6 : ∀ nv ∈ nodes, ∀ rn2 nfs2 rc2 creds2, nv = PVal.vref rn2 →
      h0.objs rn2 = some (.pdict nfs2) →
      lookupKeyP "credentials" nfs2 = some (.vref rc2) →
      h0.objs rc2 = some (.pdict creds2) →
      ((alloc h0 (.pdict fs)).1.objs rc2 = some (.pdict creds2) ∨
        Placeholderified h0.next (alloc h0 (.pdict fs)).1 rc2 (creds2.map Prod.fst)) ∧
      (nv ∉ nodes → Placeholderified h0.next (alloc h0 (.pdict fs)).1 rc2
        (creds2.map Prod.fst)) := by
    intro nv hm rn2 nfs2 rc2 creds2 hveq hn2 hlk2 hc2
    have hrc2lt : rc2 < h0.next :=
      hwf.2 rn2 (.pdict nfs2) hn2 rc2
        (lookupKeyP_mem_fieldRefs nfs2 "credentials" rc2 hlk2)
    constructor
    · refine Or.inl ?_
      show (if rc2 = h0.next then some (.pdict fs) else h0.objs rc2) = _
      rw [if_neg (by omega)]
      exact hc2
    · intro hnin
      exact (hnin hm).elim
  obtain ⟨K1, K2, K3, K4, K5, K6⟩ :=
    sanitizeNodes_fold_spec h0 nodes (.pdict fs) hwf SEP hnlt nodes
      (fun _ h => h) (alloc h0 (.pdict fs)).1 I1 I2 I3 I4 I5 I6
  rw [hsred]
  have hphF := K6 (.vref rnode) hmem rnode nfs rc creds rfl hnode hcred hcreds
  refine ⟨rfl, K5, ?_, K3 rnode nfs hmem hnode, hphF, ?_⟩
  · rcases K4 rn hrnlt with heq | ⟨c0, c1, hc0, _⟩
    · rw [heq]
      exact hrn
    · rw [hrn] at hc0
      exact absurd (Option.some.inj hc0) (fun hcon => PObj.noConfusion hcon)
  · intro hsame
    obtain ⟨creds', k1, _, k3⟩ := hphF
    rw [hsame, hcreds] at k1
    have hce : creds = creds' := PObj.pdict.inj (Option.some.inj k1)
    obtain ⟨p, hp1, hp2, _⟩ := k3 (ck, v0) (by rw [← hce]; exact hentry)
    have hv0 : v0 = PVal.vref p := hp1
    have hpmem : p ∈ fieldRefs creds :=
      mem_fieldRefs_of_mem creds ck p (by rw [← hv0]; exact hentry)
    have : p < h0.next := hwf.2 rc (.pdict creds) hcreds p hpmem
    omega

theorem exampleHeap_wf : heapWF exampleHeap := by
  constructor
  · intro a ha
    have h4 : exampleHeap.next = 4 := rfl
    rw [h4] at ha
    show (if a = 0 then some (PObj.pdict [("nodes", .vref 1)])
      else if a = 1 then some (.plist [.vref 2])
      else if a = 2 then some (.pdict [("name", .vstr "Node A"), ("credentials", .vref 3)])
      else if a = 3 then some (.pdict [("slack", .vstr "cred-42")])
      else none) = none
    rw [if_neg (by omega), if_neg (by omega), if_neg (by omega), if_neg (by omega)]
  · intro a o hao r hr
    show r < 4
    have ha4 : a < 4 := by
      by_contra hge
      have hnone : exampleHeap.objs a = none := by
        show (if a = 0 then some (PObj.pdict [("nodes", .vref 1)])
          else if a = 1 then some (.plist [.vref 2])
          else if a = 2 then some (.pdict [("name", .vstr "Node A"),
            ("credentials", .vref 3)])
          else if a = 3 then some (.pdict [("slack", .vstr "cred-42")])
          else none) = none
        rw [if_neg (by omega), if_neg (by omega), if_neg (by omega), if_neg (by omega)]
      rw [hnone] at hao
      exact Option.noConfusion hao
    interval_cases a
    · have ho := Option.some.inj
        (show some (PObj.pdict [("nodes", PVal.vref 1)]) = some o from hao)
      rw [← ho] at hr
      simp [objRefs, fieldRefs, pvalRefs] at hr
      omega
    · have ho := Option.some.inj
        (show some (PObj.plist [PVal.vref 2]) = some o from hao)
      rw [← ho] at hr
      simp [objRefs, elemRefs, pvalRefs] at hr
      omega
    · have ho := Option.some.inj
        (show some (PObj.pdict [("name", PVal.vstr "Node A"),
          ("credentials", PVal.vref 3)]) = some o from hao)
      rw [← ho] at hr
      simp [objRefs, fieldRefs, pvalRefs] at hr
      omega
    · have ho := Option.some.inj
        (show some (PObj.pdict [("slack", PVal.vstr "cred-42")]) = some o from hao)
      rw [← ho] at hr
      simp [objRefs, fieldRefs, pvalRefs] at hr

/-- Witness for C9 on `exampleHeap`: the copy is the fresh reference 4 with
the caller's own field list (aliasing the nodes list at reference 1 and the
node dict at reference 2), and the caller's original credentials dict at
reference 3 has been rewritten in place. -/
theorem sanitize_credentials_shallow_copy_mutates_input_witness :
    (sanitizeCredentialsH exampleHeap 0).2 = exampleHeap.next ∧
    (sanitizeCredentialsH exampleHeap 0).1.objs (sanitizeCredentialsH exampleHeap 0).2 =
      some (.pdict [("nodes", .vref 1)]) ∧
    (sanitizeCredentialsH exampleHeap 0).1.objs 1 = some (.plist [.vref 2]) ∧
    (sanitizeCredentialsH exampleHeap 0).1.objs 2 =
      some (.pdict [("name", .vstr "Node A"), ("credentials", .vref 3)]) ∧
    Placeholderified exampleHeap.next (sanitizeCredentialsH exampleHeap 0).1 3
      ([("slack", PVal.vstr "cred-42")].map Prod.fst) ∧
    (sanitizeCredentialsH exampleHeap 0).1.objs 3 ≠ exampleHeap.objs 3 :=
  sanitize_credentials_shallow_copy_mutates_input exampleHeap 0 1 2 3
    [("nodes", .vref 1)] [("name", .vstr "Node A"), ("credentials", .vref 3)]
    [("slack", .vstr "cred-42")] [.vref 2] "slack" (.vstr "cred-42")
    exampleHeap_wf rfl rfl rfl
    (by
      intro nv hnv a hc
      have h2 : nv = PVal.vref 2 := List.mem_singleton.mp hnv
      subst h2
      have h3 : credRefOf exampleHeap (PVal.vref 2) = some 3 := rfl
      rw [h3] at hc
      have ha : a = 3 := (Option.some.inj hc).symm
      subst ha
      decide)
    (by decide) rfl rfl rfl (by decide)
